import Mathlib

/-!
Verification development for the ScaleFS core (src/kernel/scalefs.cc).

The in-memory mapping tables (`linearhash`), the on-disk inode layer and the
free-block allocator are shallowly embedded: hash tables become association
lists over `Nat` keys, inodes become a record of the fields the interface
reads and writes, and code that can `panic` returns `Except String`.
Collaborator routines whose bodies live outside src/ (`dirlink`, `dirunlink`,
`ialloc`, `itrunc`) are modelled from the specification; each such definition
says so in its doc comment.
-/

namespace ScaleFS

/-- Association-list lookup, mirroring `linearhash::lookup`: the first
binding for the key wins. -/
def hlookup {α : Type} : List (Nat × α) → Nat → Option α
  | [], _ => none
  | p :: t, k => if p.1 = k then some p.2 else hlookup t k

/-- Association-list removal, mirroring `linearhash::remove`. -/
def hremove {α : Type} (l : List (Nat × α)) (k : Nat) : List (Nat × α) :=
  l.filter (fun p => p.1 != k)

/-- Association-list insert, mirroring `linearhash::insert` (keyed-unique:
a new binding replaces any previous binding of the same key). -/
def hinsert {α : Type} (l : List (Nat × α)) (k : Nat) (v : α) : List (Nat × α) :=
  (k, v) :: hremove l k

/-! ### Data model: inodes and the interface state

`fs.h` constants: on-disk inode types. The mnode-type enumerators of
`mnode::types` are modelled with the same numeric values so that
`create_directory_entry`'s comparison of a freshly allocated inode's type
against `T_DIR` behaves as in the source. Directory-entry names are `Nat`
(string identity is all the code uses). -/

def T_DIR : Nat := 1

def T_FILE : Nat := 2

def mnode_types_dir : Nat := 1

def mnode_types_file : Nat := 2

/-- Name used for the `".."` entry emitted by `create_dir_if_new`. -/
def dotdot : Nat := 0

/-- On-disk inode, restricted to the fields the interface layer touches:
type, link count, size and the directory-entry table (name to inum). -/
structure Inode where
  itype : Nat
  nlink : Nat
  size : Nat
  dirents : List (Nat × Nat)
deriving DecidableEq, Repr

/-- State of `mfs_interface` together with the inode layer it drives:
the two mapping tables (`mnode_to_inode : mnum to inum` and
`inum_to_mnode : inum to mnum of the held mnode handle`), the on-disk
inodes, and fresh-id counters standing in for `ialloc` and
`root_fs::alloc`. -/
structure FS where
  mnode_to_inode : List (Nat × Nat)
  inum_to_mnode : List (Nat × Nat)
  inodes : List (Nat × Inode)
  next_inum : Nat
  next_mnum : Nat
deriving DecidableEq, Repr

/-- `mfs_interface::inode_lookup`. -/
def inode_lookup (s : FS) (mnode : Nat) : Option Nat :=
  hlookup s.mnode_to_inode mnode

/-- `mfs_interface::get_inode`: panics (models as `Except.error`) when the
mnode has no inode mapping or the mapped inode does not exist. -/
def get_inode (s : FS) (mnode_inum : Nat) : Except String (Nat × Inode) :=
  match hlookup s.mnode_to_inode mnode_inum with
  | none => Except.error "get_inode: mapping for mnode does not exist"
  | some inum =>
    match hlookup s.inodes inum with
    | none => Except.error "get_inode: inode does not exist"
    | some i => Except.ok (inum, i)

/-- Modelled from the spec: `ialloc(dev, type)` of the InodeLayer (§6), whose
body is not under src/. Allocates a fresh on-disk inode of the given type
with no links, size zero and no entries. -/
def ialloc (s : FS) (t : Nat) : FS × Nat :=
  ({ s with
      inodes := hinsert s.inodes s.next_inum (Inode.mk t 0 0 []),
      next_inum := s.next_inum + 1 },
   s.next_inum)

/-- Modelled from the spec: `dirlink(dir, name, inum, isdir)` of the
InodeLayer (§6), whose body is not under src/. Adds the entry to the
directory and increments the target's link count; when the linked child is a
directory, the parent gains a link (the child's `".."`). -/
def dirlink (s : FS) (dirInum nm target : Nat) (isdir : Bool) : FS :=
  { s with inodes := s.inodes.map (fun p =>
      (p.1,
        let i1 := if p.1 = dirInum then
            { p.2 with dirents := hinsert p.2.dirents nm target } else p.2
        let i2 := if p.1 = target then { i1 with nlink := i1.nlink + 1 } else i1
        if isdir ∧ p.1 = dirInum then { i2 with nlink := i2.nlink + 1 } else i2)) }

/-- Modelled from the spec: `dirunlink(dir, name, inum, isdir)` of the
InodeLayer (§6), whose body is not under src/. Removes the entry and
decrements the target's link count; when the unlinked child is a directory,
the parent loses the link its `".."` held. -/
def dirunlink (s : FS) (dirInum nm target : Nat) (isdir : Bool) : FS :=
  { s with inodes := s.inodes.map (fun p =>
      (p.1,
        let i1 := if p.1 = dirInum then
            { p.2 with dirents := hremove p.2.dirents nm } else p.2
        let i2 := if p.1 = target then { i1 with nlink := i1.nlink - 1 } else i1
        if isdir ∧ p.1 = dirInum then { i2 with nlink := i2.nlink - 1 } else i2)) }

/-- Modelled from the spec: `dirlookup(dir, name)` of the InodeLayer (§6).
Returns the inum the entry names together with that inode, and nothing when
either is absent (the source receives a null `sref` in both cases). -/
def dirlookup (s : FS) (i : Inode) (nm : Nat) : Option (Nat × Inode) :=
  match hlookup i.dirents nm with
  | none => none
  | some t =>
    match hlookup s.inodes t with
    | none => none
    | some ti => some (t, ti)

/-- Modelled from the spec: `itrunc(i, 0, tr)` of the InodeLayer (§6) at
offset zero, as the interface calls it: drops the file contents, leaving
size zero. -/
def itrunc (s : FS) (inum : Nat) : FS :=
  { s with inodes := s.inodes.map (fun p =>
      (p.1, if p.1 = inum then { p.2 with size := 0 } else p.2)) }

/-- Link count of an inode, read back through the inode table
(the source reads it through the shared `sref` after `dirunlink`). -/
def nlinkOf (s : FS) (inum : Nat) : Nat :=
  ((hlookup s.inodes inum).map Inode.nlink).getD 0

/-- `mfs_interface::create_file_if_new`. Returns the pair
(return value, new state); the transaction parameter is not modelled, since
`iupdate`/`dir_flush` only record dirty blocks. -/
def create_file_if_new (s : FS) (mfile_inum parent mtype nm : Nat)
    (link_in_parent : Bool) : Except String (Nat × FS) :=
  match inode_lookup s mfile_inum with
  | some _ => Except.ok (0, s)
  | none =>
    match inode_lookup s parent with
    | none => Except.error "create_file_if_new: parent does not exist"
    | some parent_inum =>
      let r := ialloc s mtype
      let s2 := { r.1 with
          mnode_to_inode := hinsert r.1.mnode_to_inode mfile_inum r.2,
          inum_to_mnode := hinsert r.1.inum_to_mnode r.2 mfile_inum }
      if link_in_parent then
        match hlookup s2.inodes parent_inum with
        | none => Except.error "create_file_if_new: parent does not exist on disk"
        | some _ => Except.ok (r.2, dirlink s2 parent_inum nm r.2 false)
      else Except.ok (r.2, s2)

/-- `mfs_interface::create_dir_if_new`. The new directory receives a `".."`
entry naming the parent before any link is made in the parent. -/
def create_dir_if_new (s : FS) (mdir_inum parent mtype nm : Nat)
    (link_in_parent : Bool) : Except String (Nat × FS) :=
  match inode_lookup s mdir_inum with
  | some _ => Except.ok (0, s)
  | none =>
    match inode_lookup s parent with
    | none => Except.error "create_dir_if_new: parent does not exist"
    | some parent_inum =>
      let r := ialloc s mtype
      let s2 := { r.1 with
          mnode_to_inode := hinsert r.1.mnode_to_inode mdir_inum r.2,
          inum_to_mnode := hinsert r.1.inum_to_mnode r.2 mdir_inum }
      let s3 := dirlink s2 r.2 dotdot parent_inum false
      if link_in_parent then
        match hlookup s3.inodes parent_inum with
        | none => Except.error "create_dir_if_new: parent does not exist on disk"
        | some _ => Except.ok (r.2, dirlink s3 parent_inum nm r.2 true)
      else Except.ok (r.2, s3)

/-- Second half of `mfs_interface::create_directory_entry`: after any stale
same-name entry has been handled, link the (possibly freshly created)
child inode under the name. -/
def create_directory_entry_link (s : FS) (mdir_inum dInum nm dirent_mnum mtype : Nat) :
    Except String FS :=
  match inode_lookup s dirent_mnum with
  | some inum =>
    Except.ok (dirlink s dInum nm inum (decide (mtype = mnode_types_dir)))
  | none =>
    if mtype = mnode_types_file then
      match create_file_if_new s dirent_mnum mdir_inum mtype nm false with
      | Except.error e => Except.error e
      | Except.ok r => Except.ok (dirlink r.2 dInum nm r.1 false)
    else if mtype = mnode_types_dir then
      match create_dir_if_new s dirent_mnum mdir_inum mtype nm false with
      | Except.error e => Except.error e
      | Except.ok r => Except.ok (dirlink r.2 dInum nm r.1 true)
    else Except.ok s

/-- `mfs_interface::create_directory_entry`. Note that the source compares
the existing entry's inode number `di->inum` against the `dirent_inum`
parameter, which at every call site is an mnum; the embedding keeps that
comparison as written. -/
def create_directory_entry (s : FS) (mdir_inum nm dirent_mnum mtype : Nat) :
    Except String FS :=
  match get_inode s mdir_inum with
  | Except.error e => Except.error e
  | Except.ok di =>
    match dirlookup s di.2 nm with
    | some old =>
      if old.1 = dirent_mnum then Except.ok s
      else
        let s1 := dirunlink s di.1 nm old.1 (decide (old.2.itype = T_DIR))
        let s2 := if nlinkOf s1 old.1 = 0 then
            { itrunc s1 old.1 with
                inum_to_mnode := hremove s1.inum_to_mnode old.1 }
          else s1
        create_directory_entry_link s2 mdir_inum di.1 nm dirent_mnum mtype
    | none => create_directory_entry_link s mdir_inum di.1 nm dirent_mnum mtype

/-- `mfs_interface::unlink_old_inode`. -/
def unlink_old_inode (s : FS) (mdir_inum nm : Nat) : Except String FS :=
  match get_inode s mdir_inum with
  | Except.error e => Except.error e
  | Except.ok di =>
    match dirlookup s di.2 nm with
    | none => Except.ok s
    | some target =>
      let s1 := dirunlink s di.1 nm target.1 (decide (target.2.itype = T_DIR))
      if nlinkOf s1 target.1 = 0 then
        Except.ok { s1 with inum_to_mnode := hremove s1.inum_to_mnode target.1 }
      else Except.ok s1

/-- `mfs_interface::free_inode`: clears the inode type; the assertion
`nlink() == 0` becomes an error result. The final refcount decrement has no
counterpart in this state model. -/
def free_inode (s : FS) (mnode_inum : Nat) : Except String FS :=
  match get_inode s mnode_inum with
  | Except.error e => Except.error e
  | Except.ok ip =>
    if ip.2.nlink = 0 then
      Except.ok { s with inodes := s.inodes.map (fun p =>
        (p.1, if p.1 = ip.1 then { p.2 with itype := 0 } else p.2)) }
    else Except.error "free_inode: nlink is not zero"

/-- `mfs_interface::delete_old_inode`: truncate to zero, release the inode,
then drop the mnum-to-inum mapping. -/
def delete_old_inode (s : FS) (mfile_inum : Nat) : Except String FS :=
  match get_inode s mfile_inum with
  | Except.error e => Except.error e
  | Except.ok ip =>
    let s1 := itrunc s ip.1
    match free_inode s1 mfile_inum with
    | Except.error e => Except.error e
    | Except.ok s2 =>
      Except.ok { s2 with mnode_to_inode := hremove s2.mnode_to_inode mfile_inum }

/-- `mfs_interface::mnode_alloc` (with `create_mapping` inlined as in the
source): allocates a fresh mnode handle for `inum` and records the pair in
both tables. -/
def mnode_alloc (s : FS) (inum _mtype : Nat) : FS × Nat :=
  ({ s with
      inum_to_mnode := hinsert s.inum_to_mnode inum s.next_mnum,
      mnode_to_inode := hinsert s.mnode_to_inode s.next_mnum inum,
      next_mnum := s.next_mnum + 1 },
   s.next_mnum)

/-! ### Free-block allocator (`initialize_free_bit_vector` family)

`free_bit_vector` becomes a `List Bool` indexed by block number and the
`free_bit_freelist` a list of block numbers; the per-bit and freelist locks
have no counterpart in a sequential model. -/

structure AllocState where
  bits : List Bool
  freelist : List Nat
  sbSize : Nat
deriving DecidableEq, Repr

/-- `mfs_interface::alloc_block`: pop the freelist head after asserting its
bit is still free (assert failure models as `Except.error`), or return the
`sb.size` sentinel when the freelist is empty. -/
def alloc_block (a : AllocState) : Except String (Nat × AllocState) :=
  match a.freelist with
  | [] => Except.ok (a.sbSize, a)
  | h :: t =>
    if a.bits.getD h false = true then
      Except.ok (h, { a with bits := a.bits.set h false, freelist := t })
    else Except.error "alloc_block: assert it->is_free failed"

/-- `mfs_interface::free_block`: panics on double free, otherwise marks the
bit free and pushes it at the freelist head. -/
def free_block (a : AllocState) (bno : Nat) : Except String AllocState :=
  if h : bno < a.bits.length then
    if a.bits.get ⟨bno, h⟩ then Except.error "freeing free block"
    else Except.ok { a with bits := a.bits.set bno true, freelist := bno :: a.freelist }
  else Except.error "free_block: no such free_bit"

/-! ### Commit traces (`add_fsync_to_journal`, `flush_journal_locked`)

The observable I/O of one transaction commit, as an event list. A journal
record write (`write_journal_hdrblock` via `writei` on `/sv6journal`) only
dirties buffers; `transaction::write_to_disk` is the synchronous
write-and-wait, shown as `dsync`. `tr.blocks` and `tr.free_block_list` enter
as plain lists: `pre_process_transaction` and `prepare_for_commit` (bitmap
folding and dedup, bodies outside src/) are taken as already applied. -/

inductive Ev where
  | jstart (ts : Nat)
  | jdata (ts bno : Nat)
  | jcommit (ts : Nat)
  | dsync
  | freeB (bno : Nat)
  | wback (bno : Nat)
  | iowaitB (bno : Nat)
  | iflush
  | clearJ
deriving DecidableEq, Repr

/-- `mfs_interface::post_process_transaction`: free the transaction's freed
bits, then write every block home asynchronously, then wait, then barrier. -/
def post_process_transaction (free_block_list blocks : List Nat) : List Ev :=
  free_block_list.map Ev.freeB ++ blocks.map Ev.wback
    ++ blocks.map Ev.iowaitB ++ [Ev.iflush]

/-- `mfs_interface::write_journal_transaction_blocks`: one data record per
transaction disk block, all carrying the transaction's timestamp. -/
def write_journal_transaction_blocks (ts : Nat) (blocks : List Nat) : List Ev :=
  blocks.map (fun b => Ev.jdata ts b)

/-- `mfs_interface::add_fsync_to_journal`: start record and data records
written to the journal, one synchronous flush, commit record, second
synchronous flush, post-processing, then `clear_journal`. -/
def add_fsync_to_journal (ts : Nat) (blocks free_block_list : List Nat) : List Ev :=
  [Ev.jstart ts] ++ write_journal_transaction_blocks ts blocks ++ [Ev.dsync]
    ++ [Ev.jcommit ts] ++ [Ev.dsync]
    ++ post_process_transaction free_block_list blocks
    ++ [Ev.clearJ]

/-- `mfs_interface::flush_journal_locked`: the same per-transaction commit
discipline, applied to every transaction of `fs_journal->transaction_log` in
order. A transaction is `(timestamp, blocks, free_block_list)`. -/
def flush_journal_locked (txs : List (Nat × List Nat × List Nat)) : List Ev :=
  (txs.map (fun t => add_fsync_to_journal t.1 t.2.1 t.2.2)).flatten

def isFreeBEv : Ev → Bool
  | Ev.freeB _ => true
  | _ => false

/-- Home-location write activity: writeback, its wait, and the barrier. -/
def isHomeEv : Ev → Bool
  | Ev.wback _ => true
  | Ev.iowaitB _ => true
  | Ev.iflush => true
  | _ => false

def isJdataEv : Ev → Bool
  | Ev.jdata _ _ => true
  | _ => false

def isJstartEv : Ev → Bool
  | Ev.jstart _ => true
  | _ => false

def isJcommitEv : Ev → Bool
  | Ev.jcommit _ => true
  | _ => false

def isDsyncEv : Ev → Bool
  | Ev.dsync => true
  | _ => false

/-- Claim predicate: in-memory free bits are marked only after every home
writeback, its wait, and the storage barrier (spec steps 6-7 before 8). -/
def frees_after_home (t : List Ev) : Prop :=
  ∀ i j : Fin t.length, isFreeBEv (t.get i) = true → isHomeEv (t.get j) = true →
    (j : Nat) < (i : Nat)

instance (t : List Ev) : Decidable (frees_after_home t) := by
  unfold frees_after_home; infer_instance

/-- Claim predicate: every data record is preceded by a start record that
was synchronously waited for (a `dsync` strictly between them). -/
def per_record_sync (t : List Ev) : Prop :=
  ∀ j : Fin t.length, isJdataEv (t.get j) = true →
    ∃ i k : Fin t.length, isJstartEv (t.get i) = true ∧ isDsyncEv (t.get k) = true ∧
      (i : Nat) < (k : Nat) ∧ (k : Nat) < (j : Nat)

instance (t : List Ev) : Decidable (per_record_sync t) := by
  unfold per_record_sync; infer_instance

/-! ### Journal recovery (`process_journal`)

The journal file contents become a list of records: a header (type,
timestamp, block number) paired with its data block, or the zero-filled
header that terminates the log. -/

inductive JType where
  | start
  | data
  | commit
  | other
deriving DecidableEq, Repr

inductive JRecord where
  | zero
  | hdr (t : JType) (ts bno dat : Nat)
deriving DecidableEq, Repr

/-- Loop body of `mfs_interface::process_journal`: `cur` is
`current_transaction`, `bvec` the pending `block_vec`, `acc` the blocks
already moved into the recovery transaction by `add_blocks`; a zero header,
a timestamp mismatch, an unknown record type or the end of the file stop
the scan, and `acc` is what `write_to_disk_update_bufcache` then applies. -/
def process_journal_loop :
    List JRecord → Nat → List (Nat × Nat) → List (Nat × Nat) → List (Nat × Nat)
  | [], _, _, acc => acc
  | JRecord.zero :: _, _, _, acc => acc
  | JRecord.hdr t ts bno dat :: rest, cur, bvec, acc =>
    match t with
    | JType.start => process_journal_loop rest ts [] acc
    | JType.data =>
      if ts = cur then process_journal_loop rest cur (bvec ++ [(bno, dat)]) acc
      else acc
    | JType.commit =>
      if ts = cur then process_journal_loop rest cur [] (acc ++ bvec)
      else acc
    | JType.other => acc

/-- `mfs_interface::process_journal`: scan from offset 0 with
`current_transaction = 0` and empty vectors; returns the `(block_no, data)`
pairs applied to the buffer cache. -/
def process_journal (recs : List JRecord) : List (Nat × Nat) :=
  process_journal_loop recs 0 [] []

/-- On-disk encoding of one committed transaction: a start record, one data
record per block, and a commit record, all carrying the same timestamp. -/
def encode_txn (ts : Nat) (blks : List (Nat × Nat)) : List JRecord :=
  JRecord.hdr JType.start ts 0 0 ::
    (blks.map (fun b => JRecord.hdr JType.data ts b.1 b.2)
      ++ [JRecord.hdr JType.commit ts 0 0])

def encode_txns (l : List (Nat × List (Nat × Nat))) : List JRecord :=
  (l.map (fun t => encode_txn t.1 t.2)).flatten

/-- The data blocks of a transaction list, in order. -/
def committed_blocks (l : List (Nat × List (Nat × Nat))) : List (Nat × Nat) :=
  (l.map (fun t => t.2)).flatten

/-- A trailing transaction with a start record and data records but no
commit record. -/
def encode_trailer (ts : Nat) (blks : List (Nat × Nat)) : List JRecord :=
  JRecord.hdr JType.start ts 0 0 ::
    blks.map (fun b => JRecord.hdr JType.data ts b.1 b.2)

/-! ### Logical log operations and fsync dependency resolution

`mfs_operation` (mfs.hh, not under src/) is the tagged variant of §3 of the
spec; each operation carries its timestamp. -/

inductive MOp where
  | create (mnode parent mtype nm ts : Nat)
  | link (parent child ctype nm ts : Nat)
  | unlink (parent nm ts : Nat)
  | del (mnum ts : Nat)
  | rename (parent nm newparent newnm child ctype ts : Nat)
deriving DecidableEq, Repr

def MOp.ts : MOp → Nat
  | MOp.create _ _ _ _ t => t
  | MOp.link _ _ _ _ t => t
  | MOp.unlink _ _ t => t
  | MOp.del _ t => t
  | MOp.rename _ _ _ _ _ _ t => t

/-- The mnums an operation mentions (spec §3 payloads). -/
def mentions : MOp → List Nat
  | MOp.create mn p _ _ _ => [mn, p]
  | MOp.link p c _ _ _ => [p, c]
  | MOp.unlink p _ _ => [p]
  | MOp.del m _ => [m]
  | MOp.rename p _ np _ c _ _ => [p, np, c]

/-- Modelled from the spec: `mfs_operation::check_dependency` (mfs.hh, not
under src/) holds when any mnum the operation mentions is already in the
needed list; on inclusion the caller extends the list with all the
operation's mnums. -/
def check_dependency (op : MOp) (vec : List Nat) : Bool :=
  (mentions op).any (fun m => vec.contains m)

/-- Modelled from the spec: `mfs_operation::check_parent_dependency`
(mfs.hh, not under src/) holds when the operation's parent or child touches
an mnum already in the needed list through a directory-structural edge;
a plain delete carries no such edge. -/
def check_parent_dependency (op : MOp) (vec : List Nat) (_M : Nat) : Bool :=
  match op with
  | MOp.create mn p _ _ _ => vec.contains p || vec.contains mn
  | MOp.link p c _ _ _ => vec.contains p || vec.contains c
  | MOp.unlink p _ _ => vec.contains p
  | MOp.del _ _ => false
  | MOp.rename p _ np _ c _ _ => vec.contains p || vec.contains np || vec.contains c

/-- The inclusion test of one `find_dependent_ops` loop iteration. -/
def incl_op (isdir : Bool) (M : Nat) (op : MOp) (needed : List Nat) : Bool :=
  (isdir && check_parent_dependency op needed M) || check_dependency op needed

/-- Backward walk of `mfs_interface::find_dependent_ops` over the operation
vector, expressed on the newest-first reversal: each included operation is
pushed onto `dependent_ops` (first component) and erased from the log
(second component holds what remains, newest-first); `needed` is
`mnode_vec`. -/
def fdo_aux (isdir : Bool) (M : Nat) :
    List MOp → List Nat → List MOp × List MOp × List Nat
  | [], needed => ([], [], needed)
  | op :: older, needed =>
    if incl_op isdir M op needed then
      let r := fdo_aux isdir M older (needed ++ mentions op)
      (op :: r.1, r.2.1, r.2.2)
    else
      let r := fdo_aux isdir M older needed
      (r.1, op :: r.2.1, r.2.2)

/-- The inclusion mask of the walk, one bit per operation (newest first). -/
def fdo_mask (isdir : Bool) (M : Nat) : List MOp → List Nat → List Bool
  | [], _ => []
  | op :: older, needed =>
    if incl_op isdir M op needed then
      true :: fdo_mask isdir M older (needed ++ mentions op)
    else false :: fdo_mask isdir M older needed

def mask_filter : List MOp → List Bool → List MOp
  | [], _ => []
  | _ :: _, [] => []
  | op :: t, b :: bs => if b then op :: mask_filter t bs else mask_filter t bs

/-- `mfs_interface::find_dependent_ops` on the whole state: `ops` is
`operation_vec` oldest-first; the result is (`dependent_ops` newest-first,
the remaining `operation_vec` oldest-first). `mnode_vec` starts at the
fsync target. -/
def find_dependent_ops (ops : List MOp) (M : Nat) (isdir : Bool) :
    List MOp × List MOp :=
  let r := fdo_aux isdir M ops.reverse [M]
  (r.1, r.2.1.reverse)

/-- `mfs_interface::process_metadata_log(max_tsc, inum, isdir)`: resolve the
dependent operations, then apply them from the back of `dependent_ops` to
its front. Returns (the operations in application order, the remaining
log). -/
def process_metadata_log_fsync (ops : List MOp) (M : Nat) (isdir : Bool) :
    List MOp × List MOp :=
  let r := find_dependent_ops ops M isdir
  (r.1.reverse, r.2)

/-- Whether a selection mask is closed under the dependency rule: whenever
an operation's inclusion test fires against the mnums of the strictly newer
selected operations (plus the fsync target), the mask selects it. The
operation list is newest-first and `needed` accumulates front to back. -/
def adequateB (isdir : Bool) (M : Nat) : List MOp → List Bool → List Nat → Bool
  | [], _, _ => true
  | op :: older, bs, needed =>
    (!(incl_op isdir M op needed) || bs.headD false) &&
      adequateB isdir M older bs.tail
        (if bs.headD false then needed ++ mentions op else needed)

/-! ### Helper lemmas about the association-list operations -/

theorem hlookup_hinsert_self {α : Type} (l : List (Nat × α)) (k : Nat) (v : α) :
    hlookup (hinsert l k v) k = some v := by
  simp [hinsert, hlookup]

theorem hlookup_hremove_ne {α : Type} (l : List (Nat × α)) (k k' : Nat) (h : k' ≠ k) :
    hlookup (hremove l k) k' = hlookup l k' := by
  induction l with
  | nil => rfl
  | cons p t ih =>
    by_cases hp : p.1 = k
    · have hne : ¬ p.1 = k' := fun hh => h (hh ▸ hp)
      have hb : (p.1 != k) = false := by simpa using hp
      simp only [hremove, List.filter_cons, hb, Bool.false_eq_true, if_false,
        hlookup, if_neg hne]
      exact ih
    · have hb : (p.1 != k) = true := by simpa using hp
      simp only [hremove, List.filter_cons, hb, if_true, hlookup]
      by_cases hk : p.1 = k'
      · simp [hk]
      · simp only [hk, if_false]
        exact ih

theorem hlookup_hinsert_ne {α : Type} (l : List (Nat × α)) (k k' : Nat) (v : α) (h : k' ≠ k) :
    hlookup (hinsert l k v) k' = hlookup l k' := by
  simp only [hinsert, hlookup, if_neg (fun hh : k = k' => h hh.symm)]
  exact hlookup_hremove_ne l k k' h

theorem hlookup_map_value {α β : Type} (g : Nat × α → β) (l : List (Nat × α)) (k : Nat) :
    hlookup (l.map (fun p => (p.1, g p))) k = (hlookup l k).map (fun v => g (k, v)) := by
  induction l with
  | nil => rfl
  | cons p t ih =>
    by_cases hp : p.1 = k
    · subst hp; simp [hlookup]
    · simp [hlookup, hp, ih]

/-- Membership in the filtered list underlying `hremove`. -/
theorem mem_hremove {α : Type} {l : List (Nat × α)} {k : Nat} {p : Nat × α}
    (h : p ∈ hremove l k) : p ∈ l ∧ p.1 ≠ k := by
  have := List.of_mem_filter h
  exact ⟨List.mem_of_mem_filter h, by simpa using this⟩


/-! ### Pointwise descriptions of the inode-table updates -/

theorem hlookup_dirunlink (s : FS) (dirInum nm target k : Nat) (isdir : Bool) :
    hlookup (dirunlink s dirInum nm target isdir).inodes k =
      (hlookup s.inodes k).map (fun i =>
        let i1 := if k = dirInum then { i with dirents := hremove i.dirents nm } else i
        let i2 := if k = target then { i1 with nlink := i1.nlink - 1 } else i1
        if isdir ∧ k = dirInum then { i2 with nlink := i2.nlink - 1 } else i2) := by
  simp only [dirunlink]
  rw [hlookup_map_value]

theorem hlookup_dirlink (s : FS) (dirInum nm target k : Nat) (isdir : Bool) :
    hlookup (dirlink s dirInum nm target isdir).inodes k =
      (hlookup s.inodes k).map (fun i =>
        let i1 := if k = dirInum then { i with dirents := hinsert i.dirents nm target } else i
        let i2 := if k = target then { i1 with nlink := i1.nlink + 1 } else i1
        if isdir ∧ k = dirInum then { i2 with nlink := i2.nlink + 1 } else i2) := by
  simp only [dirlink]
  rw [hlookup_map_value]

theorem hlookup_itrunc (s : FS) (inum k : Nat) :
    hlookup (itrunc s inum).inodes k =
      (hlookup s.inodes k).map (fun i => if k = inum then { i with size := 0 } else i) := by
  simp only [itrunc]
  rw [hlookup_map_value]

/-! ### C7: idempotence of create_file_if_new -/

theorem inode_lookup_dirlink (s : FS) (a b c m : Nat) (d : Bool) :
    inode_lookup (dirlink s a b c d) m = inode_lookup s m := rfl

/-- C7: `create_file_if_new` is idempotent: when the mnode already has an
inode mapping it returns 0 and leaves the state unchanged, and a second call
with the same arguments after any successful call returns 0 and leaves the
state of the first call unchanged. -/
theorem create_file_if_new_idempotent (s : FS) (m parent mt nm : Nat) (lk : Bool) :
    (∀ inum, inode_lookup s m = some inum →
      create_file_if_new s m parent mt nm lk = Except.ok (0, s)) ∧
    (∀ v s', create_file_if_new s m parent mt nm lk = Except.ok (v, s') →
      create_file_if_new s' m parent mt nm lk = Except.ok (0, s')) := by
  constructor
  · intro inum h
    simp [create_file_if_new, h]
  · intro v s' h
    cases hm : inode_lookup s m with
    | some inum =>
      simp only [create_file_if_new, hm] at h
      cases h
      simp [create_file_if_new, hm]
    | none =>
      cases hp : inode_lookup s parent with
      | none => simp [create_file_if_new, hm, hp] at h
      | some parent_inum =>
        simp only [create_file_if_new, hm, hp] at h
        cases lk with
        | false =>
          simp only [if_false, Bool.false_eq_true] at h
          cases h
          have hl : inode_lookup
              { (ialloc s mt).1 with
                mnode_to_inode :=
                  hinsert (ialloc s mt).1.mnode_to_inode m (ialloc s mt).2,
                inum_to_mnode :=
                  hinsert (ialloc s mt).1.inum_to_mnode (ialloc s mt).2 m } m =
              some (ialloc s mt).2 := hlookup_hinsert_self _ _ _
          simp [create_file_if_new, hl]
        | true =>
          simp only [if_true] at h
          cases hpi : hlookup
              { (ialloc s mt).1 with
                mnode_to_inode :=
                  hinsert (ialloc s mt).1.mnode_to_inode m (ialloc s mt).2,
                inum_to_mnode :=
                  hinsert (ialloc s mt).1.inum_to_mnode (ialloc s mt).2 m }.inodes
              parent_inum with
          | none => rw [hpi] at h; cases h
          | some pi =>
            rw [hpi] at h
            cases h
            have hl : inode_lookup
                (dirlink { (ialloc s mt).1 with
                  mnode_to_inode :=
                    hinsert (ialloc s mt).1.mnode_to_inode m (ialloc s mt).2,
                  inum_to_mnode :=
                    hinsert (ialloc s mt).1.inum_to_mnode (ialloc s mt).2 m }
                  parent_inum nm (ialloc s mt).2 false) m =
                some (ialloc s mt).2 := hlookup_hinsert_self _ _ _
            simp [create_file_if_new, hl]

/-- Witness for C7 at a concrete state: a root directory with inum 1 and
mnum 1; creating file mnum 5 twice equals creating it once, and a call for
an already-mapped mnum is a no-op returning 0. -/
theorem create_file_if_new_idempotent_witness :
    create_file_if_new (FS.mk [(1, 1)] [(1, 1)] [(1, Inode.mk 1 1 0 [])] 2 10)
      1 1 2 7 true =
      Except.ok (0, FS.mk [(1, 1)] [(1, 1)] [(1, Inode.mk 1 1 0 [])] 2 10) ∧
    create_file_if_new
      (FS.mk [(5, 2), (1, 1)] [(2, 5), (1, 1)]
        [(2, Inode.mk 2 1 0 []), (1, Inode.mk 1 1 0 [(7, 2)])] 3 10) 5 1 2 7 true =
      Except.ok (0, FS.mk [(5, 2), (1, 1)] [(2, 5), (1, 1)]
        [(2, Inode.mk 2 1 0 []), (1, Inode.mk 1 1 0 [(7, 2)])] 3 10) :=
  ⟨(create_file_if_new_idempotent
      (FS.mk [(1, 1)] [(1, 1)] [(1, Inode.mk 1 1 0 [])] 2 10) 1 1 2 7 true).1
      1 rfl,
   (create_file_if_new_idempotent
      (FS.mk [(1, 1)] [(1, 1)] [(1, Inode.mk 1 1 0 [])] 2 10) 5 1 2 7 true).2
      2 (FS.mk [(5, 2), (1, 1)] [(2, 5), (1, 1)]
        [(2, Inode.mk 2 1 0 []), (1, Inode.mk 1 1 0 [(7, 2)])] 3 10) rfl⟩

/-! ### C9: alloc_block never panics and returns either a free block or the
sentinel -/

/-- C9: under the freelist invariant (every listed block's bit is free),
`alloc_block` returns without panicking; with a non-empty freelist it
returns the head block, whose bit was free, clears that bit and pops the
freelist; with an empty freelist it returns the `sb.size` sentinel and
changes nothing. -/
theorem alloc_block_no_panic (a : AllocState)
    (hinv : ∀ b ∈ a.freelist, a.bits.getD b false = true) :
    (a.freelist = [] ∧ alloc_block a = Except.ok (a.sbSize, a)) ∨
    (∃ h t, a.freelist = h :: t ∧ a.bits.getD h false = true ∧
      alloc_block a =
        Except.ok (h, { a with bits := a.bits.set h false, freelist := t })) := by
  cases hf : a.freelist with
  | nil => exact Or.inl ⟨rfl, by simp [alloc_block, hf]⟩
  | cons h t =>
    have hb : a.bits.getD h false = true := hinv h (by rw [hf]; exact List.mem_cons_self h t)
    refine Or.inr ⟨h, t, rfl, hb, ?_⟩
    simp only [alloc_block, hf]
    rw [if_pos hb]

/-- Witness for C9: a two-block allocator with block 1 free, and an
allocator with an empty freelist returning the sentinel. -/
theorem alloc_block_no_panic_witness :
    ((([1] : List Nat) = [] ∧
        alloc_block (AllocState.mk [true, true] [1] 2) =
          Except.ok (2, AllocState.mk [true, true] [1] 2)) ∨
      (∃ h t, ([1] : List Nat) = h :: t ∧
        (AllocState.mk [true, true] [1] 2).bits.getD h false = true ∧
        alloc_block (AllocState.mk [true, true] [1] 2) =
          Except.ok (h, { AllocState.mk [true, true] [1] 2 with
            bits := [true, true].set h false, freelist := t }))) :=
  alloc_block_no_panic (AllocState.mk [true, true] [1] 2) (by decide)

/-! ### C10: unlink of a missing name is a panic-free no-op -/

/-- C10: when the directory is mapped and on disk but `dirlookup` finds no
target for the name, `unlink_old_inode` returns successfully with the state
completely unchanged. -/
theorem unlink_missing_entry_noop (s : FS) (mdir nm dInum : Nat) (di : Inode)
    (h1 : hlookup s.mnode_to_inode mdir = some dInum)
    (h2 : hlookup s.inodes dInum = some di)
    (h3 : dirlookup s di nm = none) :
    unlink_old_inode s mdir nm = Except.ok s := by
  simp [unlink_old_inode, get_inode, h1, h2, h3]

/-- Witness for C10: a root directory holding one entry, asked to unlink a
name it does not contain. -/
theorem unlink_missing_entry_noop_witness :
    unlink_old_inode
      (FS.mk [(1, 1)] [(1, 1)] [(1, Inode.mk 1 1 0 [(7, 2)])] 3 10) 1 9 =
      Except.ok (FS.mk [(1, 1)] [(1, 1)] [(1, Inode.mk 1 1 0 [(7, 2)])] 3 10) :=
  unlink_missing_entry_noop
    (FS.mk [(1, 1)] [(1, 1)] [(1, Inode.mk 1 1 0 [(7, 2)])] 3 10) 1 9 1
    (Inode.mk 1 1 0 [(7, 2)]) (by decide) (by decide) (by decide)

/-! ### C8: effects and frame of unlink_old_inode -/

/-- C8: when the directory entry exists (and the target is an inode distinct
from the directory with a positive link count), `unlink_old_inode` removes
exactly that entry, decrements the target's link count, removes the
target's `inum_to_mnode` mapping if and only if the count dropped to zero,
and changes nothing else: the target keeps its type and size (no truncate),
`mnode_to_inode` is untouched, and every other inode is untouched. -/
theorem unlink_old_inode_effects (s : FS) (mdir nm dInum tInum : Nat)
    (di t : Inode)
    (h1 : hlookup s.mnode_to_inode mdir = some dInum)
    (h2 : hlookup s.inodes dInum = some di)
    (h3 : hlookup di.dirents nm = some tInum)
    (h4 : hlookup s.inodes tInum = some t)
    (hne : tInum ≠ dInum)
    (_hpos : 0 < t.nlink) :
    ∃ s', unlink_old_inode s mdir nm = Except.ok s' ∧
      s'.mnode_to_inode = s.mnode_to_inode ∧
      s'.inum_to_mnode = (if t.nlink - 1 = 0 then hremove s.inum_to_mnode tInum
        else s.inum_to_mnode) ∧
      hlookup s'.inodes tInum = some { t with nlink := t.nlink - 1 } ∧
      (∃ di', hlookup s'.inodes dInum = some di' ∧
        di'.dirents = hremove di.dirents nm ∧ di'.size = di.size ∧
        di'.itype = di.itype) ∧
      (∀ j, j ≠ dInum → j ≠ tInum → hlookup s'.inodes j = hlookup s.inodes j) ∧
      s'.next_inum = s.next_inum ∧ s'.next_mnum = s.next_mnum := by
  have hdl : dirlookup s di nm = some (tInum, t) := by
    simp [dirlookup, h3, h4]
  have hstep : unlink_old_inode s mdir nm =
      (let s1 := dirunlink s dInum nm tInum (decide (t.itype = T_DIR))
       if nlinkOf s1 tInum = 0 then
         Except.ok { s1 with inum_to_mnode := hremove s1.inum_to_mnode tInum }
       else Except.ok s1) := by
    simp [unlink_old_inode, get_inode, h1, h2, hdl]
  have htl : hlookup (dirunlink s dInum nm tInum (decide (t.itype = T_DIR))).inodes
      tInum = some { t with nlink := t.nlink - 1 } := by
    rw [hlookup_dirunlink, h4]
    simp [hne]
  have hnl : nlinkOf (dirunlink s dInum nm tInum (decide (t.itype = T_DIR))) tInum =
      t.nlink - 1 := by
    simp [nlinkOf, htl]
  have hne' : dInum ≠ tInum := fun h => hne h.symm
  have hdi : ∃ di',
      hlookup (dirunlink s dInum nm tInum (decide (t.itype = T_DIR))).inodes dInum =
        some di' ∧ di'.dirents = hremove di.dirents nm ∧ di'.size = di.size ∧
        di'.itype = di.itype := by
    rw [hlookup_dirunlink, h2]
    by_cases hd : t.itype = T_DIR
    · exact ⟨_, rfl, by simp [hd, hne']⟩
    · exact ⟨_, rfl, by simp [hd, hne']⟩
  have hfr : ∀ j, j ≠ dInum → j ≠ tInum →
      hlookup (dirunlink s dInum nm tInum (decide (t.itype = T_DIR))).inodes j =
        hlookup s.inodes j := by
    intro j hj1 hj2
    rw [hlookup_dirunlink]
    cases hlookup s.inodes j with
    | none => rfl
    | some i => simp [hj1, hj2]
  rw [hstep]
  by_cases hz : t.nlink - 1 = 0
  · refine ⟨{ dirunlink s dInum nm tInum (decide (t.itype = T_DIR)) with
        inum_to_mnode :=
          hremove (dirunlink s dInum nm tInum (decide (t.itype = T_DIR))).inum_to_mnode
            tInum }, ?_, rfl, ?_, htl, hdi, hfr, rfl, rfl⟩
    · show (if nlinkOf (dirunlink s dInum nm tInum (decide (t.itype = T_DIR))) tInum = 0
          then _ else _) = _
      rw [hnl, if_pos hz]
    · simp [hz]
      rfl
  · refine ⟨dirunlink s dInum nm tInum (decide (t.itype = T_DIR)), ?_, rfl, ?_,
      htl, hdi, hfr, rfl, rfl⟩
    · show (if nlinkOf (dirunlink s dInum nm tInum (decide (t.itype = T_DIR))) tInum = 0
          then _ else _) = _
      rw [hnl, if_neg hz]
    · simp [hz]
      rfl

/-- Witness for C8: unlinking name 7 (file inum 2, nlink 1) from directory
inum 1. -/
theorem unlink_old_inode_effects_witness :
    ∃ s', unlink_old_inode
        (FS.mk [(10, 1), (20, 2)] [(1, 10), (2, 20)]
          [(1, Inode.mk 1 1 0 [(7, 2)]), (2, Inode.mk 2 1 4096 [])] 3 30)
        10 7 = Except.ok s' ∧
      s'.mnode_to_inode = [(10, 1), (20, 2)] ∧
      s'.inum_to_mnode = (if 1 - 1 = 0 then
        hremove ([(1, 10), (2, 20)] : List (Nat × Nat)) 2 else [(1, 10), (2, 20)]) ∧
      hlookup s'.inodes 2 = some { Inode.mk 2 1 4096 [] with nlink := 1 - 1 } ∧
      (∃ di', hlookup s'.inodes 1 = some di' ∧
        di'.dirents = hremove ([(7, 2)] : List (Nat × Nat)) 7 ∧ di'.size = 0 ∧
        di'.itype = 1) ∧
      (∀ j, j ≠ 1 → j ≠ 2 → hlookup s'.inodes j =
        hlookup ([(1, Inode.mk 1 1 0 [(7, 2)]), (2, Inode.mk 2 1 4096 [])]
          : List (Nat × Inode)) j) ∧
      s'.next_inum = 3 ∧ s'.next_mnum = 30 :=
  unlink_old_inode_effects
    (FS.mk [(10, 1), (20, 2)] [(1, 10), (2, 20)]
      [(1, Inode.mk 1 1 0 [(7, 2)]), (2, Inode.mk 2 1 4096 [])] 3 30)
    10 7 1 2 (Inode.mk 1 1 0 [(7, 2)]) (Inode.mk 2 1 4096 [])
    (by decide) (by decide) (by decide) (by decide) (by decide) (by decide)

/-! ### C1: table symmetry -/

/-- One direction of invariant M1: every `inum to mnum` pair has its mirror
in `mnode_to_inode`. -/
def half_invP (mti itm : List (Nat × Nat)) : Bool :=
  itm.all (fun p => hlookup mti p.2 == some p.1)

def half_inv (s : FS) : Bool :=
  half_invP s.mnode_to_inode s.inum_to_mnode

/-- Invariant M1 as stated by the claim: both directions mirror each other. -/
def tables_symmetric (s : FS) : Bool :=
  half_inv s && s.mnode_to_inode.all (fun p => hlookup s.inum_to_mnode p.2 == some p.1)

/-- Counterexample to C1: in a state whose tables are symmetric, unlinking
the last name of file mnum 20 (inum 2) drops the link count to zero, so
`unlink_old_inode` removes `inum_to_mnode[2]` while leaving
`mnode_to_inode[20] = 2` in place: the completed operation leaves the pair
present in only one direction. -/
theorem unlink_breaks_table_symmetry :
    tables_symmetric
      (FS.mk [(10, 1), (20, 2)] [(1, 10), (2, 20)]
        [(1, Inode.mk 1 1 0 [(7, 2)]), (2, Inode.mk 2 1 0 [])] 3 30) = true ∧
    (unlink_old_inode
      (FS.mk [(10, 1), (20, 2)] [(1, 10), (2, 20)]
        [(1, Inode.mk 1 1 0 [(7, 2)]), (2, Inode.mk 2 1 0 [])] 3 30)
      10 7).toOption.map tables_symmetric = some false := by
  constructor
  · decide
  · decide

theorem half_invP_iff (mti itm : List (Nat × Nat)) :
    half_invP mti itm = true ↔ ∀ p ∈ itm, hlookup mti p.2 = some p.1 := by
  simp [half_invP, List.all_eq_true]

theorem half_invP_remove_itm {mti itm : List (Nat × Nat)} (k : Nat)
    (h : half_invP mti itm = true) : half_invP mti (hremove itm k) = true := by
  rw [half_invP_iff] at h ⊢
  intro p hp
  exact h p (mem_hremove hp).1

theorem half_invP_remove_mti {mti itm : List (Nat × Nat)} {m : Nat}
    (h : half_invP mti itm = true) (hm : ∀ p ∈ itm, p.2 ≠ m) :
    half_invP (hremove mti m) itm = true := by
  rw [half_invP_iff] at h ⊢
  intro p hp
  rw [hlookup_hremove_ne _ _ _ (hm p hp)]
  exact h p hp

theorem half_invP_insert_pair {mti itm : List (Nat × Nat)} {m i : Nat}
    (h : half_invP mti itm = true) (hm : ∀ p ∈ itm, p.2 ≠ m) :
    half_invP (hinsert mti m i) (hinsert itm i m) = true := by
  rw [half_invP_iff] at h ⊢
  intro p hp
  rcases List.mem_cons.1 hp with hp | hp
  · subst hp
    exact hlookup_hinsert_self mti m i
  · have hmem := mem_hremove hp
    rw [hlookup_hinsert_ne _ _ _ _ (hm p hmem.1)]
    exact h p hmem.1

theorem half_invP_fresh_of_lookup_none {mti itm : List (Nat × Nat)} {m : Nat}
    (h : half_invP mti itm = true) (hnone : hlookup mti m = none) :
    ∀ p ∈ itm, p.2 ≠ m := by
  intro p hp heq
  have := (half_invP_iff mti itm).1 h p hp
  rw [heq, hnone] at this
  cases this

/-- Preservation of the one-direction invariant by `create_file_if_new`. -/
theorem half_inv_create_file {s : FS} {m p mt nm : Nat} {lk : Bool} {v : Nat}
    {s' : FS} (hinv : half_inv s = true)
    (h : create_file_if_new s m p mt nm lk = Except.ok (v, s')) :
    half_inv s' = true := by
  cases hm : inode_lookup s m with
  | some inum =>
    simp only [create_file_if_new, hm] at h
    cases h
    exact hinv
  | none =>
    cases hp : inode_lookup s p with
    | none => simp [create_file_if_new, hm, hp] at h
    | some parent_inum =>
      have hkey : half_invP (hinsert s.mnode_to_inode m (ialloc s mt).2)
          (hinsert s.inum_to_mnode (ialloc s mt).2 m) = true :=
        half_invP_insert_pair hinv (half_invP_fresh_of_lookup_none hinv hm)
      simp only [create_file_if_new, hm, hp] at h
      cases lk with
      | false =>
        simp only [if_false, Bool.false_eq_true] at h
        cases h
        exact hkey
      | true =>
        simp only [if_true] at h
        cases hpi : hlookup
            { (ialloc s mt).1 with
              mnode_to_inode := hinsert (ialloc s mt).1.mnode_to_inode m (ialloc s mt).2,
              inum_to_mnode :=
                hinsert (ialloc s mt).1.inum_to_mnode (ialloc s mt).2 m }.inodes
            parent_inum with
        | none => rw [hpi] at h; cases h
        | some pi =>
          rw [hpi] at h
          cases h
          exact hkey

/-- Preservation of the one-direction invariant by `create_dir_if_new`. -/
theorem half_inv_create_dir {s : FS} {m p mt nm : Nat} {lk : Bool} {v : Nat}
    {s' : FS} (hinv : half_inv s = true)
    (h : create_dir_if_new s m p mt nm lk = Except.ok (v, s')) :
    half_inv s' = true := by
  cases hm : inode_lookup s m with
  | some inum =>
    simp only [create_dir_if_new, hm] at h
    cases h
    exact hinv
  | none =>
    cases hp : inode_lookup s p with
    | none => simp [create_dir_if_new, hm, hp] at h
    | some parent_inum =>
      have hkey : half_invP (hinsert s.mnode_to_inode m (ialloc s mt).2)
          (hinsert s.inum_to_mnode (ialloc s mt).2 m) = true :=
        half_invP_insert_pair hinv (half_invP_fresh_of_lookup_none hinv hm)
      simp only [create_dir_if_new, hm, hp] at h
      cases lk with
      | false =>
        simp only [if_false, Bool.false_eq_true] at h
        cases h
        exact hkey
      | true =>
        simp only [if_true] at h
        cases hpi : hlookup
            (dirlink { (ialloc s mt).1 with
              mnode_to_inode := hinsert (ialloc s mt).1.mnode_to_inode m (ialloc s mt).2,
              inum_to_mnode :=
                hinsert (ialloc s mt).1.inum_to_mnode (ialloc s mt).2 m }
              (ialloc s mt).2 dotdot parent_inum false).inodes parent_inum with
        | none => rw [hpi] at h; cases h
        | some pi =>
          rw [hpi] at h
          cases h
          exact hkey

/-- Preservation of the one-direction invariant by the linking phase of
`create_directory_entry`. -/
theorem half_inv_cde_link {s : FS} {mdir dInum nm cm mt : Nat} {s' : FS}
    (hinv : half_inv s = true)
    (h : create_directory_entry_link s mdir dInum nm cm mt = Except.ok s') :
    half_inv s' = true := by
  cases hl : inode_lookup s cm with
  | some inum =>
    simp only [create_directory_entry_link, hl] at h
    cases h
    exact hinv
  | none =>
    simp only [create_directory_entry_link, hl] at h
    by_cases hf : mt = mnode_types_file
    · rw [if_pos hf] at h
      cases hc : create_file_if_new s cm mdir mt nm false with
      | error e => rw [hc] at h; cases h
      | ok r =>
        obtain ⟨v, rs⟩ := r
        rw [hc] at h
        cases h
        have hh := half_inv_create_file hinv hc
        exact hh
    · rw [if_neg hf] at h
      by_cases hd : mt = mnode_types_dir
      · rw [if_pos hd] at h
        cases hc : create_dir_if_new s cm mdir mt nm false with
        | error e => rw [hc] at h; cases h
        | ok r =>
          obtain ⟨v, rs⟩ := r
          rw [hc] at h
          cases h
          have hh := half_inv_create_dir hinv hc
          exact hh
      · rw [if_neg hd] at h
        cases h
        exact hinv

/-- Preservation of the one-direction invariant by `create_directory_entry`. -/
theorem half_inv_create_directory_entry {s : FS} {mdir nm cm mt : Nat} {s' : FS}
    (hinv : half_inv s = true)
    (h : create_directory_entry s mdir nm cm mt = Except.ok s') :
    half_inv s' = true := by
  cases hg : get_inode s mdir with
  | error e => simp [create_directory_entry, hg] at h
  | ok di =>
    simp only [create_directory_entry, hg] at h
    cases hdl : dirlookup s di.2 nm with
    | none =>
      simp only [hdl] at h
      exact half_inv_cde_link hinv h
    | some old =>
      simp only [hdl] at h
      by_cases heq : old.1 = cm
      · rw [if_pos heq] at h
        cases h
        exact hinv
      · rw [if_neg heq] at h
        by_cases hz : nlinkOf (dirunlink s di.1 nm old.1 (decide (old.2.itype = T_DIR)))
            old.1 = 0
        · rw [if_pos hz] at h
          have hh : half_inv
              { itrunc (dirunlink s di.1 nm old.1 (decide (old.2.itype = T_DIR))) old.1 with
                inum_to_mnode :=
                  hremove (dirunlink s di.1 nm old.1
                    (decide (old.2.itype = T_DIR))).inum_to_mnode old.1 } = true :=
            half_invP_remove_itm old.1 hinv
          exact half_inv_cde_link hh h
        · rw [if_neg hz] at h
          have hh : half_inv
              (dirunlink s di.1 nm old.1 (decide (old.2.itype = T_DIR))) = true := hinv
          exact half_inv_cde_link hh h

/-- Preservation of the one-direction invariant by `unlink_old_inode`. -/
theorem half_inv_unlink {s : FS} {mdir nm : Nat} {s' : FS}
    (hinv : half_inv s = true)
    (h : unlink_old_inode s mdir nm = Except.ok s') : half_inv s' = true := by
  cases hg : get_inode s mdir with
  | error e => simp [unlink_old_inode, hg] at h
  | ok di =>
    simp only [unlink_old_inode, hg] at h
    cases hdl : dirlookup s di.2 nm with
    | none =>
      simp only [hdl] at h
      cases h
      exact hinv
    | some target =>
      simp only [hdl] at h
      by_cases hz : nlinkOf (dirunlink s di.1 nm target.1
          (decide (target.2.itype = T_DIR))) target.1 = 0
      · rw [if_pos hz] at h
        cases h
        exact half_invP_remove_itm target.1 hinv
      · rw [if_neg hz] at h
        cases h
        exact hinv

/-- Preservation of the one-direction invariant by `delete_old_inode`, under
the precondition that `inum_to_mnode` no longer references the deleted mnum
(established by the preceding unlink, whose nlink-zero branch removed it). -/
theorem half_inv_delete {s : FS} {m : Nat} {s' : FS}
    (hinv : half_inv s = true) (hfresh : ∀ q ∈ s.inum_to_mnode, q.2 ≠ m)
    (h : delete_old_inode s m = Except.ok s') : half_inv s' = true := by
  cases hg : get_inode s m with
  | error e => simp [delete_old_inode, hg] at h
  | ok ip =>
    simp only [delete_old_inode, hg] at h
    cases hfi : free_inode (itrunc s ip.1) m with
    | error e => rw [hfi] at h; cases h
    | ok s2 =>
      rw [hfi] at h
      cases h
      have hs2 : s2.mnode_to_inode = s.mnode_to_inode ∧
          s2.inum_to_mnode = s.inum_to_mnode := by
        cases hg2 : get_inode (itrunc s ip.1) m with
        | error e => simp [free_inode, hg2] at hfi
        | ok ip2 =>
          simp only [free_inode, hg2] at hfi
          by_cases hn : ip2.2.nlink = 0
          · rw [if_pos hn] at hfi
            cases hfi
            exact ⟨rfl, rfl⟩
          · rw [if_neg hn] at hfi
            cases hfi
      have : half_invP s2.mnode_to_inode s2.inum_to_mnode = true := by
        rw [hs2.1, hs2.2]
        exact hinv
      show half_invP (hremove s2.mnode_to_inode m) s2.inum_to_mnode = true
      refine half_invP_remove_mti this ?_
      rw [hs2.2]
      exact hfresh

/-- Preservation of the one-direction invariant by `mnode_alloc`, under the
precondition that the fresh mnum is not referenced by `inum_to_mnode`. -/
theorem half_inv_mnode_alloc {s : FS} (inum mt : Nat)
    (hinv : half_inv s = true)
    (hfresh : ∀ q ∈ s.inum_to_mnode, q.2 ≠ s.next_mnum) :
    half_inv (mnode_alloc s inum mt).1 = true :=
  half_invP_insert_pair hinv hfresh

/-- C1 amended: the claimed two-way symmetry of the mapping tables fails at
`unlink_old_inode` (see the counterexample); what every operation preserves
is the one-direction invariant that each `inum_to_mnode` pair is mirrored in
`mnode_to_inode` — for `delete_old_inode` under the precondition that the
unlink already removed the target's `inum_to_mnode` entry, and for
`mnode_alloc` with a fresh mnode id. -/
theorem half_invariant_preserved (s : FS) :
    (∀ m p mt nm lk v s', half_inv s = true →
      create_file_if_new s m p mt nm lk = Except.ok (v, s') →
      half_inv s' = true) ∧
    (∀ m p mt nm lk v s', half_inv s = true →
      create_dir_if_new s m p mt nm lk = Except.ok (v, s') →
      half_inv s' = true) ∧
    (∀ mdir nm cm mt s', half_inv s = true →
      create_directory_entry s mdir nm cm mt = Except.ok s' →
      half_inv s' = true) ∧
    (∀ mdir nm s', half_inv s = true →
      unlink_old_inode s mdir nm = Except.ok s' → half_inv s' = true) ∧
    (∀ m s', half_inv s = true → (∀ q ∈ s.inum_to_mnode, q.2 ≠ m) →
      delete_old_inode s m = Except.ok s' → half_inv s' = true) ∧
    (∀ inum mt, half_inv s = true →
      (∀ q ∈ s.inum_to_mnode, q.2 ≠ s.next_mnum) →
      half_inv (mnode_alloc s inum mt).1 = true) :=
  ⟨fun _ _ _ _ _ _ _ hinv h => half_inv_create_file hinv h,
   fun _ _ _ _ _ _ _ hinv h => half_inv_create_dir hinv h,
   fun _ _ _ _ _ hinv h => half_inv_create_directory_entry hinv h,
   fun _ _ _ hinv h => half_inv_unlink hinv h,
   fun _ _ hinv hfresh h => half_inv_delete hinv hfresh h,
   fun inum mt hinv hfresh => half_inv_mnode_alloc inum mt hinv hfresh⟩

/-- Witness for the amended C1 at the counterexample state: the unlink that
breaks two-way symmetry does preserve the one-direction invariant. -/
theorem half_invariant_preserved_witness :
    half_inv (FS.mk [(10, 1), (20, 2)] [(1, 10)]
      [(1, Inode.mk 1 1 0 []), (2, Inode.mk 2 0 0 [])] 3 30) = true :=
  (half_invariant_preserved
    (FS.mk [(10, 1), (20, 2)] [(1, 10), (2, 20)]
      [(1, Inode.mk 1 1 0 [(7, 2)]), (2, Inode.mk 2 1 0 [])] 3 30)).2.2.2.1
    10 7
    (FS.mk [(10, 1), (20, 2)] [(1, 10)]
      [(1, Inode.mk 1 1 0 []), (2, Inode.mk 2 0 0 [])] 3 30)
    (by decide) rfl

/-! ### C2 and C3: ordering of the commit protocol -/

/-- Counterexample to C2: in the commit trace of a transaction with one
dirty block and one freed block, the in-memory free bit is marked (event
`freeB 5`) before the home-location writeback of block 9, its wait, and the
`ideflush` barrier, contradicting the claim that step 8 happens after steps
6 and 7. -/
theorem frees_not_after_writeback :
    ¬ frees_after_home (add_fsync_to_journal 1 [9] [5]) := by
  decide

/-- C2 amended: `post_process_transaction` marks the transaction's free bits
first, after the commit record and its synchronous flush are on disk but
before the home-location writebacks, waits and barrier; no free bit is
marked and no home write happens before the commit record. -/
theorem frees_after_commit_record (ts : Nat) (blocks fl : List Nat) :
    ∃ pre post,
      add_fsync_to_journal ts blocks fl =
        pre ++ [Ev.jcommit ts, Ev.dsync] ++ fl.map Ev.freeB ++ post ∧
      (∀ e ∈ pre, isFreeBEv e = false ∧ isHomeEv e = false) ∧
      (∀ e ∈ post, isFreeBEv e = false) ∧
      post = blocks.map Ev.wback ++ blocks.map Ev.iowaitB ++ [Ev.iflush]
        ++ [Ev.clearJ] := by
  refine ⟨[Ev.jstart ts] ++ blocks.map (fun b => Ev.jdata ts b) ++ [Ev.dsync],
    blocks.map Ev.wback ++ blocks.map Ev.iowaitB ++ [Ev.iflush] ++ [Ev.clearJ],
    ?_, ?_, ?_, rfl⟩
  · simp [add_fsync_to_journal, post_process_transaction,
      write_journal_transaction_blocks]
  · intro e he
    rcases List.mem_append.1 he with he | he
    · rcases List.mem_append.1 he with he | he
      · rw [List.mem_singleton] at he
        subst he
        exact ⟨rfl, rfl⟩
      · obtain ⟨b, _, hb⟩ := List.mem_map.1 he
        subst hb
        exact ⟨rfl, rfl⟩
    · rw [List.mem_singleton] at he
      subst he
      exact ⟨rfl, rfl⟩
  · intro e he
    rcases List.mem_append.1 he with he | he
    · rcases List.mem_append.1 he with he | he
      · rcases List.mem_append.1 he with he | he
        · obtain ⟨b, _, hb⟩ := List.mem_map.1 he
          subst hb
          rfl
        · obtain ⟨b, _, hb⟩ := List.mem_map.1 he
          subst hb
          rfl
      · rw [List.mem_singleton] at he
        subst he
        rfl
    · rw [List.mem_singleton] at he
      subst he
      rfl

/-- Witness for the amended C2 at a concrete transaction. -/
theorem frees_after_commit_record_witness :
    ∃ pre post,
      add_fsync_to_journal 1 [9] [5] =
        pre ++ [Ev.jcommit 1, Ev.dsync] ++ [5].map Ev.freeB ++ post ∧
      (∀ e ∈ pre, isFreeBEv e = false ∧ isHomeEv e = false) ∧
      (∀ e ∈ post, isFreeBEv e = false) ∧
      post = [9].map Ev.wback ++ [9].map Ev.iowaitB ++ [Ev.iflush]
        ++ [Ev.clearJ] :=
  frees_after_commit_record 1 [9] [5]

/-- Counterexample to C3: in the commit trace of a transaction with one
dirty block, the data record (`jdata 1 9`) is written with no synchronous
wait (`dsync`) between it and the start record: the journal is not awaited
per record. -/
theorem no_per_record_sync :
    ¬ per_record_sync (add_fsync_to_journal 1 [9] []) := by
  decide

/-- C3 amended: the start record and all data records are written together
with no synchronous wait and no home write among them; a single synchronous
flush follows them, then the commit record, then a second synchronous flush,
and only then the post-processing (home writeback) and journal reset, which
contain no journal-record writes. `flush_journal_locked` commits each queued
transaction with exactly this discipline. -/
theorem journal_sync_group_order (ts : Nat) (blocks fl : List Nat) :
    add_fsync_to_journal ts blocks fl =
      (Ev.jstart ts :: blocks.map (fun b => Ev.jdata ts b)) ++ [Ev.dsync]
        ++ [Ev.jcommit ts] ++ [Ev.dsync]
        ++ (post_process_transaction fl blocks ++ [Ev.clearJ]) ∧
    (∀ e ∈ Ev.jstart ts :: blocks.map (fun b => Ev.jdata ts b),
      isDsyncEv e = false ∧ isHomeEv e = false) ∧
    (∀ e ∈ post_process_transaction fl blocks ++ [Ev.clearJ],
      isJdataEv e = false ∧ isJstartEv e = false ∧ isJcommitEv e = false) ∧
    flush_journal_locked [(ts, blocks, fl)] = add_fsync_to_journal ts blocks fl := by
  refine ⟨?_, ?_, ?_, ?_⟩
  · simp [add_fsync_to_journal, write_journal_transaction_blocks]
  · intro e he
    rcases List.mem_cons.1 he with he | he
    · subst he
      exact ⟨rfl, rfl⟩
    · obtain ⟨b, _, hb⟩ := List.mem_map.1 he
      subst hb
      exact ⟨rfl, rfl⟩
  · intro e he
    rcases List.mem_append.1 he with he | he
    · rcases List.mem_append.1 he with he | he
      · rcases List.mem_append.1 he with he | he
        · rcases List.mem_append.1 he with he | he
          · obtain ⟨b, _, hb⟩ := List.mem_map.1 he
            subst hb
            exact ⟨rfl, rfl, rfl⟩
          · obtain ⟨b, _, hb⟩ := List.mem_map.1 he
            subst hb
            exact ⟨rfl, rfl, rfl⟩
        · obtain ⟨b, _, hb⟩ := List.mem_map.1 he
          subst hb
          exact ⟨rfl, rfl, rfl⟩
      · rw [List.mem_singleton] at he
        subst he
        exact ⟨rfl, rfl, rfl⟩
    · rw [List.mem_singleton] at he
      subst he
      exact ⟨rfl, rfl, rfl⟩
  · simp [flush_journal_locked]

/-- Witness for the amended C3 at a concrete transaction. -/
theorem journal_sync_group_order_witness :
    add_fsync_to_journal 1 [9] [5] =
      (Ev.jstart 1 :: [9].map (fun b => Ev.jdata 1 b)) ++ [Ev.dsync]
        ++ [Ev.jcommit 1] ++ [Ev.dsync]
        ++ (post_process_transaction [5] [9] ++ [Ev.clearJ]) :=
  (journal_sync_group_order 1 [9] [5]).1

/-! ### C4: recovery applies exactly the committed prefix -/

theorem pjl_start (ts bno dat : Nat) (rest : List JRecord) (cur : Nat)
    (bvec acc : List (Nat × Nat)) :
    process_journal_loop (JRecord.hdr JType.start ts bno dat :: rest) cur bvec acc =
      process_journal_loop rest ts [] acc := rfl

theorem pjl_data_cons (ts : Nat) (b : Nat × Nat) (rest : List JRecord)
    (bvec acc : List (Nat × Nat)) :
    process_journal_loop (JRecord.hdr JType.data ts b.1 b.2 :: rest) ts bvec acc =
      process_journal_loop rest ts (bvec ++ [(b.1, b.2)]) acc := by
  simp [process_journal_loop]

theorem pjl_commit_self (ts : Nat) (rest : List JRecord)
    (bvec acc : List (Nat × Nat)) :
    process_journal_loop (JRecord.hdr JType.commit ts 0 0 :: rest) ts bvec acc =
      process_journal_loop rest ts [] (acc ++ bvec) := by
  simp [process_journal_loop]

theorem pj_datas (blks : List (Nat × Nat)) (ts : Nat) (rest : List JRecord)
    (bvec acc : List (Nat × Nat)) :
    process_journal_loop
      (blks.map (fun b => JRecord.hdr JType.data ts b.1 b.2) ++ rest) ts bvec acc =
      process_journal_loop rest ts (bvec ++ blks) acc := by
  induction blks generalizing bvec with
  | nil => simp
  | cons b bs ih =>
    rw [List.map_cons, List.cons_append, pjl_data_cons, ih]
    simp

theorem pj_txn (ts : Nat) (blks : List (Nat × Nat)) (rest : List JRecord)
    (cur : Nat) (bvec acc : List (Nat × Nat)) :
    process_journal_loop (encode_txn ts blks ++ rest) cur bvec acc =
      process_journal_loop rest ts [] (acc ++ blks) := by
  rw [encode_txn, List.cons_append, pjl_start, List.append_assoc, pj_datas,
    List.singleton_append, pjl_commit_self]
  simp

theorem pj_enc_zero (txns : List (Nat × List (Nat × Nat))) (junk : List JRecord)
    (cur : Nat) (bvec acc : List (Nat × Nat)) :
    process_journal_loop (encode_txns txns ++ JRecord.zero :: junk) cur bvec acc =
      acc ++ committed_blocks txns := by
  induction txns generalizing cur bvec acc with
  | nil => simp [encode_txns, committed_blocks, process_journal_loop]
  | cons t ts ih =>
    have henc : encode_txns (t :: ts) ++ JRecord.zero :: junk =
        encode_txn t.1 t.2 ++ (encode_txns ts ++ JRecord.zero :: junk) := by
      simp [encode_txns]
    rw [henc, pj_txn, ih]
    simp [committed_blocks]

theorem pj_enc_trailer (txns : List (Nat × List (Nat × Nat))) (pts : Nat)
    (pbs : List (Nat × Nat)) (cur : Nat) (bvec acc : List (Nat × Nat)) :
    process_journal_loop (encode_txns txns ++ encode_trailer pts pbs) cur bvec acc =
      acc ++ committed_blocks txns := by
  induction txns generalizing cur bvec acc with
  | nil =>
    rw [show encode_txns [] ++ encode_trailer pts pbs = encode_trailer pts pbs from by
      simp [encode_txns]]
    rw [encode_trailer, pjl_start,
      show (pbs.map (fun b => JRecord.hdr JType.data pts b.1 b.2) : List JRecord) =
        pbs.map (fun b => JRecord.hdr JType.data pts b.1 b.2) ++ [] from
        (List.append_nil _).symm,
      pj_datas]
    simp [committed_blocks, process_journal_loop]
  | cons t ts ih =>
    have henc : encode_txns (t :: ts) ++ encode_trailer pts pbs =
        encode_txn t.1 t.2 ++ (encode_txns ts ++ encode_trailer pts pbs) := by
      simp [encode_txns]
    rw [henc, pj_txn, ih]
    simp [committed_blocks]

theorem pj_enc_trailer_zero (txns : List (Nat × List (Nat × Nat))) (pts : Nat)
    (pbs : List (Nat × Nat)) (junk : List JRecord) (cur : Nat)
    (bvec acc : List (Nat × Nat)) :
    process_journal_loop
      (encode_txns txns ++ encode_trailer pts pbs ++ JRecord.zero :: junk)
      cur bvec acc = acc ++ committed_blocks txns := by
  induction txns generalizing cur bvec acc with
  | nil =>
    rw [show encode_txns [] ++ encode_trailer pts pbs ++ JRecord.zero :: junk =
        JRecord.hdr JType.start pts 0 0 ::
          (pbs.map (fun b => JRecord.hdr JType.data pts b.1 b.2) ++
            JRecord.zero :: junk) from by simp [encode_txns, encode_trailer]]
    rw [pjl_start, pj_datas]
    simp [committed_blocks, process_journal_loop]
  | cons t ts ih =>
    have henc : encode_txns (t :: ts) ++ encode_trailer pts pbs ++ JRecord.zero :: junk =
        encode_txn t.1 t.2 ++
          (encode_txns ts ++ encode_trailer pts pbs ++ JRecord.zero :: junk) := by
      simp [encode_txns]
    rw [henc, pj_txn, ih]
    simp [committed_blocks]

theorem pj_enc_mismatch (txns : List (Nat × List (Nat × Nat))) (pts qts b d : Nat)
    (junk : List JRecord) (h : qts ≠ pts) (cur : Nat) (bvec acc : List (Nat × Nat)) :
    process_journal_loop
      (encode_txns txns ++ JRecord.hdr JType.start pts 0 0 ::
        JRecord.hdr JType.data qts b d :: junk) cur bvec acc =
      acc ++ committed_blocks txns := by
  induction txns generalizing cur bvec acc with
  | nil =>
    rw [show encode_txns [] ++ JRecord.hdr JType.start pts 0 0 ::
        JRecord.hdr JType.data qts b d :: junk =
        JRecord.hdr JType.start pts 0 0 ::
          JRecord.hdr JType.data qts b d :: junk from by simp [encode_txns]]
    rw [pjl_start]
    simp [committed_blocks, process_journal_loop, h]
  | cons t ts ih =>
    have henc : encode_txns (t :: ts) ++ JRecord.hdr JType.start pts 0 0 ::
        JRecord.hdr JType.data qts b d :: junk =
        encode_txn t.1 t.2 ++ (encode_txns ts ++ JRecord.hdr JType.start pts 0 0 ::
          JRecord.hdr JType.data qts b d :: junk) := by
      simp [encode_txns]
    rw [henc, pj_txn, ih]
    simp [committed_blocks]

/-- C4: `process_journal` applies to the buffer cache exactly the data
blocks of the committed transactions (each with its matching start/commit
timestamps), reading from offset 0 and stopping at the first zero header or
timestamp mismatch; a trailing transaction with start and data records but
no commit — whether the log simply ends or is zero-filled after it —
contributes nothing. -/
theorem process_journal_commits_exactly (txns : List (Nat × List (Nat × Nat)))
    (junk : List JRecord) (pts : Nat) (pbs : List (Nat × Nat)) :
    process_journal (encode_txns txns ++ JRecord.zero :: junk) =
      committed_blocks txns ∧
    process_journal (encode_txns txns ++ encode_trailer pts pbs) =
      committed_blocks txns ∧
    process_journal (encode_txns txns ++ encode_trailer pts pbs ++
      JRecord.zero :: junk) = committed_blocks txns ∧
    (∀ qts b d, qts ≠ pts →
      process_journal (encode_txns txns ++ JRecord.hdr JType.start pts 0 0 ::
        JRecord.hdr JType.data qts b d :: junk) = committed_blocks txns) := by
  refine ⟨?_, ?_, ?_, ?_⟩
  · rw [process_journal, pj_enc_zero]
    simp
  · rw [process_journal, pj_enc_trailer]
    simp
  · rw [process_journal, pj_enc_trailer_zero]
    simp
  · intro qts b d h
    rw [process_journal, pj_enc_mismatch _ _ _ _ _ _ h]
    simp

/-- Witness for C4: one committed transaction writing block 7, followed by
an uncommitted trailer whose data record timestamp mismatches. -/
theorem process_journal_commits_exactly_witness :
    process_journal (encode_txns [(3, [(7, 11)])] ++ JRecord.zero :: []) =
      committed_blocks [(3, [(7, 11)])] ∧
    process_journal (encode_txns [(3, [(7, 11)])] ++
      JRecord.hdr JType.start 4 0 0 :: JRecord.hdr JType.data 5 8 12 :: []) =
      committed_blocks [(3, [(7, 11)])] :=
  ⟨(process_journal_commits_exactly [(3, [(7, 11)])] [] 4 [(8, 12)]).1,
   (process_journal_commits_exactly [(3, [(7, 11)])] [] 4 [(8, 12)]).2.2.2 5 8 12
     (by decide)⟩

/-! ### C5 and C6: fsync dependency resolution -/

theorem contains_mono {A B : List Nat} (hAB : ∀ x, x ∈ A → x ∈ B) (x : Nat)
    (h : A.contains x = true) : B.contains x = true := by
  have hx : x ∈ A := by simpa using h
  simpa using hAB x hx

theorem check_dependency_mono (op : MOp) {A B : List Nat}
    (hAB : ∀ x, x ∈ A → x ∈ B) (h : check_dependency op A = true) :
    check_dependency op B = true := by
  simp only [check_dependency, List.any_eq_true] at h ⊢
  obtain ⟨x, hx, hA⟩ := h
  exact ⟨x, hx, contains_mono hAB x hA⟩

theorem check_parent_dependency_mono (op : MOp) (M : Nat) {A B : List Nat}
    (hAB : ∀ x, x ∈ A → x ∈ B)
    (h : check_parent_dependency op A M = true) :
    check_parent_dependency op B M = true := by
  cases op with
  | create mn p mt nm ts =>
    simp only [check_parent_dependency, Bool.or_eq_true] at h ⊢
    rcases h with h | h
    · exact Or.inl (contains_mono hAB _ h)
    · exact Or.inr (contains_mono hAB _ h)
  | link p c ct nm ts =>
    simp only [check_parent_dependency, Bool.or_eq_true] at h ⊢
    rcases h with h | h
    · exact Or.inl (contains_mono hAB _ h)
    · exact Or.inr (contains_mono hAB _ h)
  | unlink p nm ts =>
    simp only [check_parent_dependency] at h ⊢
    exact contains_mono hAB _ h
  | del m ts =>
    simp only [check_parent_dependency] at h
    cases h
  | rename p nm np nn c ct ts =>
    simp only [check_parent_dependency, Bool.or_eq_true] at h ⊢
    rcases h with (h | h) | h
    · exact Or.inl (Or.inl (contains_mono hAB _ h))
    · exact Or.inl (Or.inr (contains_mono hAB _ h))
    · exact Or.inr (contains_mono hAB _ h)

theorem incl_op_mono (isdir : Bool) (M : Nat) (op : MOp) {A B : List Nat}
    (hAB : ∀ x, x ∈ A → x ∈ B) (h : incl_op isdir M op A = true) :
    incl_op isdir M op B = true := by
  simp only [incl_op, Bool.or_eq_true, Bool.and_eq_true] at h ⊢
  rcases h with ⟨hi, hp⟩ | hd
  · exact Or.inl ⟨hi, check_parent_dependency_mono op M hAB hp⟩
  · exact Or.inr (check_dependency_mono op hAB hd)

/-- The walk's own mask is closed under the dependency rule. -/
theorem fdo_mask_adequate (isdir : Bool) (M : Nat) :
    ∀ (l : List MOp) (needed : List Nat),
      adequateB isdir M l (fdo_mask isdir M l needed) needed = true := by
  intro l
  induction l with
  | nil => intro needed; rfl
  | cons op older ih =>
    intro needed
    by_cases hin : incl_op isdir M op needed = true
    · simp only [fdo_mask, if_pos hin, adequateB, List.headD, List.tail_cons]
      simp [hin, ih]
    · have hwf : incl_op isdir M op needed = false := by
        cases h' : incl_op isdir M op needed
        · rfl
        · exact absurd h' hin
      simp only [fdo_mask, if_neg hin, adequateB, List.headD, List.tail_cons]
      simp [hwf, ih]

/-- Any selection closed under the dependency rule contains every operation
the walk selects (pointwise on the newest-first masks). -/
theorem fdo_mask_minimal_aux (isdir : Bool) (M : Nat) :
    ∀ (l : List MOp) (A B : List Nat) (bs : List Bool),
      (∀ x, x ∈ A → x ∈ B) →
      adequateB isdir M l bs B = true →
      ∀ i, (fdo_mask isdir M l A).getD i false = true → bs.getD i false = true := by
  intro l
  induction l with
  | nil =>
    intro A B bs hAB hadq i h
    cases h
  | cons op older ih =>
    intro A B bs hAB hadq i hmask
    simp only [adequateB, Bool.and_eq_true] at hadq
    obtain ⟨h1, h2⟩ := hadq
    by_cases hw : incl_op isdir M op A = true
    · have hB : incl_op isdir M op B = true := incl_op_mono isdir M op hAB hw
      cases bs with
      | nil =>
        rw [hB] at h1
        cases h1
      | cons hb bt =>
        have hb' : hb = true := by
          rw [hB] at h1
          simpa using h1
        subst hb'
        cases i with
        | zero => rfl
        | succ i =>
          have hmask' : (fdo_mask isdir M older (A ++ mentions op)).getD i false =
              true := by
            simpa [fdo_mask, hw] using hmask
          have hAB' : ∀ x, x ∈ A ++ mentions op → x ∈ B ++ mentions op := by
            intro x hx
            rcases List.mem_append.1 hx with hx | hx
            · exact List.mem_append.2 (Or.inl (hAB x hx))
            · exact List.mem_append.2 (Or.inr hx)
          have h2' : adequateB isdir M older bt (B ++ mentions op) = true := by
            simpa using h2
          exact ih (A ++ mentions op) (B ++ mentions op) bt hAB' h2' i hmask'
    · have hwf : incl_op isdir M op A = false := by
        cases h' : incl_op isdir M op A
        · rfl
        · exact absurd h' hw
      have hmask0 : fdo_mask isdir M (op :: older) A =
          false :: fdo_mask isdir M older A := by
        simp [fdo_mask, hwf]
      rw [hmask0] at hmask
      cases i with
      | zero => cases hmask
      | succ i =>
        have hmask' : (fdo_mask isdir M older A).getD i false = true := hmask
        have hAB' : ∀ x, x ∈ A →
            x ∈ (if bs.headD false then B ++ mentions op else B) := by
          intro x hx
          by_cases hhd : bs.headD false = true
          · rw [if_pos hhd]
            exact List.mem_append.2 (Or.inl (hAB x hx))
          · rw [if_neg hhd]
            exact hAB x hx
        cases bs with
        | nil =>
          have hfin := ih A (if ([] : List Bool).headD false then B ++ mentions op
            else B) [] hAB' h2 i hmask'
          cases hfin
        | cons hb bt =>
          exact ih A (if (hb :: bt).headD false then B ++ mentions op else B) bt
            hAB' h2 i hmask'

/-- The selected list of the walk is the mask-filter of its mask. -/
theorem fdo_aux_eq_mask (isdir : Bool) (M : Nat) :
    ∀ (l : List MOp) (needed : List Nat),
      (fdo_aux isdir M l needed).1 =
        mask_filter l (fdo_mask isdir M l needed) := by
  intro l
  induction l with
  | nil => intro needed; rfl
  | cons op older ih =>
    intro needed
    by_cases hin : incl_op isdir M op needed = true
    · simp [fdo_aux, fdo_mask, hin, mask_filter, ih]
    · simp [fdo_aux, fdo_mask, hin, mask_filter, ih]

/-- C5: for any state of the log, target mnum and isdir flag, the
operations `fsync` selects and applies form exactly the least subset of
`operation_vec` closed under the dependency rule: the walk's selection mask
is closed under it (`adequateB`), and any closed selection mask contains it
pointwise. -/
theorem find_dependent_ops_minimal (ops : List MOp) (M : Nat) (isdir : Bool) :
    (find_dependent_ops ops M isdir).1 =
      mask_filter ops.reverse (fdo_mask isdir M ops.reverse [M]) ∧
    (process_metadata_log_fsync ops M isdir).1 =
      (mask_filter ops.reverse (fdo_mask isdir M ops.reverse [M])).reverse ∧
    adequateB isdir M ops.reverse (fdo_mask isdir M ops.reverse [M]) [M] = true ∧
    (∀ bs, adequateB isdir M ops.reverse bs [M] = true →
      ∀ i, (fdo_mask isdir M ops.reverse [M]).getD i false = true →
        bs.getD i false = true) := by
  refine ⟨fdo_aux_eq_mask isdir M ops.reverse [M], ?_,
    fdo_mask_adequate isdir M ops.reverse [M],
    fun bs hadq i h =>
      fdo_mask_minimal_aux isdir M ops.reverse [M] [M] bs (fun x hx => hx) hadq i h⟩
  show (fdo_aux isdir M ops.reverse [M]).1.reverse = _
  rw [fdo_aux_eq_mask isdir M ops.reverse [M]]

/-- Witness for C5 at a concrete log: two creates under the root, fsync of
mnum 5; the closed mask [false, true] contains the walk's mask pointwise. -/
theorem find_dependent_ops_minimal_witness :
    ([false, true] : List Bool).getD 1 false = true :=
  (find_dependent_ops_minimal
    [MOp.create 5 1 1 7 100, MOp.create 6 1 1 8 101] 5 false).2.2.2
    [false, true] (by decide) 1 (by decide)

/-- The walk selects a subsequence of the (newest-first) log. -/
theorem fdo_aux_sel_sublist (isdir : Bool) (M : Nat) :
    ∀ (l : List MOp) (needed : List Nat),
      List.Sublist (fdo_aux isdir M l needed).1 l := by
  intro l
  induction l with
  | nil => intro needed; exact List.Sublist.refl []
  | cons op older ih =>
    intro needed
    by_cases hin : incl_op isdir M op needed = true
    · simp only [fdo_aux, if_pos hin]
      exact List.Sublist.cons₂ op (ih (needed ++ mentions op))
    · simp only [fdo_aux, if_neg hin]
      exact List.Sublist.cons op (ih needed)

/-- C6: the per-op apply loop of `process_metadata_log(max_tsc, inum,
isdir)` walks `dependent_ops` from its back to its front, so the operations
are applied in the reverse of the newest-to-oldest order in which
`find_dependent_ops` collected them; since they form a subsequence of the
timestamp-ordered `operation_vec`, the application order is oldest-first. -/
theorem fsync_applies_oldest_first (ops : List MOp) (M : Nat) (isdir : Bool) :
    (process_metadata_log_fsync ops M isdir).1 =
      (find_dependent_ops ops M isdir).1.reverse ∧
    List.Sublist (process_metadata_log_fsync ops M isdir).1 ops ∧
    (ops.Pairwise (fun a b => a.ts ≤ b.ts) →
      ((process_metadata_log_fsync ops M isdir).1).Pairwise
        (fun a b => a.ts ≤ b.ts)) := by
  have hsub : List.Sublist (process_metadata_log_fsync ops M isdir).1 ops := by
    show List.Sublist (fdo_aux isdir M ops.reverse [M]).1.reverse ops
    have h1 := fdo_aux_sel_sublist isdir M ops.reverse [M]
    have h2 := List.Sublist.reverse h1
    rwa [List.reverse_reverse] at h2
  exact ⟨rfl, hsub, fun hsort => hsort.sublist hsub⟩

/-- Witness for C6: the applied operations of a concrete fsync are
timestamp-sorted. -/
theorem fsync_applies_oldest_first_witness :
    ((process_metadata_log_fsync
      [MOp.create 5 1 1 7 100, MOp.link 1 5 1 8 101] 5 false).1).Pairwise
      (fun a b => a.ts ≤ b.ts) :=
  (fsync_applies_oldest_first
    [MOp.create 5 1 1 7 100, MOp.link 1 5 1 8 101] 5 false).2.2 (by decide)

end ScaleFS
